import Mathlib

/-!
Verification of the blockchain-interaction toolkit of provide-go
(`ethereum.go` and its near-duplicate in `api/privacy/models.go`).

The Go source is shallowly embedded: machine integers are `Nat`/`Int` with
explicit reductions where overflow matters, byte slices are `List Nat`
(each element a byte value), fallible Go functions return `GoRes` which
distinguishes an ordinary error return (`fail`) from a runtime panic
(`crash`), and network interaction is modelled by an explicit environment
of RPC outcomes plus (where a claim is about ordering) an event trace.
Cryptographic primitives (scrypt, Keccak-256, the AES block function) and
randomness (salt, IV, UUID) enter as parameters of the embedded functions,
so every theorem quantifies over them; the surrounding structure — key
derivation, CTR keystream XOR, MAC composition, record layout — is taken
from the source.
-/

set_option maxRecDepth 10000

namespace ProvideGo

/-- Outcome of a Go computation: a value, an error return, or a panic. -/
inductive GoRes (α : Type) where
  | ok (v : α)
  | fail (msg : String)
  | crash (msg : String)
deriving DecidableEq

namespace GoRes

def isOk {α : Type} : GoRes α → Bool
  | .ok _ => true
  | _ => false

def isCrash {α : Type} : GoRes α → Bool
  | .crash _ => true
  | _ => false

def isFail {α : Type} : GoRes α → Bool
  | .fail _ => true
  | _ => false

end GoRes

/-! ## Byte and hex utilities (models of `encoding/hex`, `common.FromHex`, `hexutil`) -/

/-- Go `[]byte(s)` conversion; the strings exercised here are ASCII, where
code points and UTF-8 bytes coincide. -/
def strBytes (s : String) : List Nat :=
  s.data.map Char.toNat

/-- Inverse of `strBytes`, modelling Go `string(b)` for the byte lists used here. -/
def bytesStr (bs : List Nat) : String :=
  ⟨bs.map Char.ofNat⟩

/-- Lowercase hex digit, as produced by `hex.EncodeToString`. -/
def hexChar (n : Nat) : Char :=
  Char.ofNat (if n < 10 then 48 + n else 87 + n)

/-- Model of `hex.EncodeToString`: two lowercase hex digits per byte. -/
def hexEncode (bs : List Nat) : String :=
  ⟨bs.flatMap fun b => [hexChar (b / 16 % 16), hexChar (b % 16)]⟩

/-- Value of a single hex digit character, upper or lower case. -/
def hexCharVal (c : Char) : Option Nat :=
  if 48 ≤ c.toNat ∧ c.toNat ≤ 57 then some (c.toNat - 48)
  else if 97 ≤ c.toNat ∧ c.toNat ≤ 102 then some (c.toNat - 87)
  else if 65 ≤ c.toNat ∧ c.toNat ≤ 70 then some (c.toNat - 55)
  else none

/-- Strict pairwise hex decoding (model of `hex.DecodeString` on success;
`none` on odd length or an invalid digit). -/
def hexDecodeChars : List Char → Option (List Nat)
  | [] => some []
  | [_] => none
  | c1 :: c2 :: rest =>
    match hexCharVal c1, hexCharVal c2, hexDecodeChars rest with
    | some h, some l, some bs => some ((16 * h + l) :: bs)
    | _, _, _ => none

def hexDecode (s : String) : Option (List Nat) :=
  hexDecodeChars s.data

/-- Big-endian interpretation of a byte list (model of `big.Int.SetBytes`). -/
def beBytesToNat (bs : List Nat) : Nat :=
  bs.foldl (fun acc b => acc * 256 + b) 0

/-- Fixed-width big-endian byte encoding of a natural number. -/
def natToBEBytes (width n : Nat) : List Nat :=
  (List.range width).map fun i => n / 256 ^ (width - 1 - i) % 256

/-- Model of `common.LeftPadBytes(bs, width)` followed by the truncation
`BytesToAddress`/`BytesToHash` performs: keep the trailing `width` bytes,
left-padding with zeros when shorter. -/
def leftPadTrunc (width : Nat) (bs : List Nat) : List Nat :=
  if bs.length ≤ width then List.replicate (width - bs.length) 0 ++ bs
  else bs.drop (bs.length - width)

/-- Right-pad a byte list with zeros to a multiple of 32 (ABI padding). -/
def rightPad32 (bs : List Nat) : List Nat :=
  bs ++ List.replicate ((32 - bs.length % 32) % 32) 0

/-- Model of `common.FromHex` + `Hex2Bytes` as used by `HexToAddress`:
strip an optional 0x prefix, left-pad an odd-length string with one 0 digit,
then decode hex pairs, stopping silently at the first invalid pair. -/
def hexPairsLoose : List Char → List Nat
  | c1 :: c2 :: rest =>
    match hexCharVal c1, hexCharVal c2 with
    | some h, some l => (16 * h + l) :: hexPairsLoose rest
    | _, _ => []
  | _ => []

def goFromHex (s : String) : List Nat :=
  let cs := if s.data.take 2 = ['0', 'x'] ∨ s.data.take 2 = ['0', 'X'] then s.data.drop 2 else s.data
  let cs := if cs.length % 2 = 1 then '0' :: cs else cs
  hexPairsLoose cs

/-- Model of `common.HexToAddress`. -/
def hexToAddress (s : String) : List Nat :=
  leftPadTrunc 20 (goFromHex s)

/-- Decode a list of hex digits to a number, or `none` on an invalid digit. -/
def hexDigitsToNat : List Char → Option Nat
  | [] => some 0
  | c :: rest =>
    match hexCharVal c, hexDigitsToNat rest with
    | some d, some n => some (d * 16 ^ rest.length + n)
    | _, _ => none

/-- Model of `hexutil.DecodeUint64`: requires a 0x prefix, a nonempty digit
string without leading zeros, at most 16 hex digits. -/
def decodeUint64Hex (s : String) : Option Nat :=
  if s.data.take 2 = ['0', 'x'] then
    let ds := s.data.drop 2
    if ds = [] then none
    else if ds.length > 1 ∧ ds.headD '0' = '0' then none
    else if ds.length > 16 then none
    else hexDigitsToNat ds
  else none

/-- Model of the source helper `stringOrNil`. -/
def stringOrNil (s : String) : Option String :=
  if s = "" then none else some s

/-! ## ABI codec model

Embedding of `EncodeABI` and `coerceAbiParameter` from
`api/privacy/models.go`, together with the pieces of the go-ethereum 1.8
`accounts/abi` package they call (`Arguments.Pack`, `typeCheck`,
`packElement`). `abi.Type` is represented as a closed variant carrying the
fields the source consults: the type tag `T`, the reflect `Kind`, the
element type, the `Size`, and the `stringKind` used by the
`fmt.Sprintf` comparison against `uint256[]`. -/

/-- The reflect kinds `coerceAbiParameter` switches on (`t.Kind`). -/
inductive ReflectKind where
  | uintK | uint8K | uint16K | uint32K | uint64K
  | intK | int8K | int16K | int32K | int64K
  | float64K | ptrK | otherK
deriving DecidableEq

/-- go-ethereum `abi.Type`, restricted to the variants the source handles.
`sliceTy`/`arrayTy` carry `size` (0 for slices) and `stringKind`. -/
inductive AbiType where
  | intTy (size : Nat) (kind : ReflectKind)
  | uintTy (size : Nat) (kind : ReflectKind)
  | boolTy
  | addressTy
  | stringTy
  | bytesTy
  | fixedBytesTy (size : Nat)
  | sliceTy (size : Nat) (stringKind : String)
  | arrayTy (size : Nat) (stringKind : String)
  | hashTy
  | functionTy
deriving DecidableEq

/-- A Go `interface{}` argument as supplied to `EncodeABI`. Float64 values
are restricted to integral floats, carried as the `Int` the `int64(...)`
conversions in the source produce. -/
inductive GoValue where
  | vBool (b : Bool)
  | vString (s : String)
  | vBytes (bs : List Nat)
  | vInt64 (i : Int)
  | vFloat64 (i : Int)
  | vList (vs : List GoValue)

/-- A coerced parameter as handed to `Arguments.Pack` (the dynamic type of
the `interface{}` returned by `coerceAbiParameter`, after the string-to-bytes
adjustment in `EncodeABI`). -/
inductive PackValue where
  | pBig (i : Int)
  | pBool (b : Bool)
  | pAddress (bs : List Nat)
  | pHash (bs : List Nat)
  | pString (s : String)
  | pBytes (bs : List Nat)
  | pUint (width : Nat) (n : Nat)
  | pInt (width : Nat) (i : Int)
  | pFuncTy (bs : List Nat)
  | pFixedBytes (size : Nat) (bs : List Nat)
  | pBigList (vs : List (Option Int))
  | pInt64 (i : Int)
  | pFloat64 (i : Int)
  | pIfaceList (vs : List GoValue)
  | pZeroValue (t : AbiType)

/-- Model of `readInteger` for the default (big-integer) kind; the narrow
kinds are unreachable from `coerceAbiParameter` (their switch cases return
earlier), so only the `big.Int.SetBytes` default is needed. -/
def readIntegerBig (bs : List Nat) : PackValue :=
  .pBig (beBytesToNat bs)

/-- Model of `readFixedBytes`: a reflect-made `[size]byte` zero array with
`reflect.Copy` from the word, i.e. the word truncated or zero-padded to
`size` bytes. -/
def readFixedBytes (size : Nat) (word : List Nat) : GoRes PackValue :=
  .ok (.pFixedBytes size (word.take size ++ List.replicate (size - word.length) 0))

/-- Model of `readFunctionType`: requires at least 32 bytes (the Go slice
expressions panic otherwise), the last 8 bytes of the word must be zero,
and the result is the leading 24 bytes. -/
def readFunctionType (word : List Nat) : GoRes PackValue :=
  if word.length < 32 then .crash "runtime error: slice bounds out of range"
  else if beBytesToNat ((word.drop 24).take 8) ≠ 0 then
    .fail "abi: got improperly encoded function type"
  else .ok (.pFuncTy (word.take 24))

/-- All elements of a `[]interface{}` asserted to `float64`, as in the
`uint256[]` fallback loop; a non-float element panics the assertion. -/
def floatsOfList : List GoValue → GoRes (List (Option Int))
  | [] => .ok []
  | .vFloat64 i :: rest =>
    match floatsOfList rest with
    | .ok vs => .ok (some i :: vs)
    | r => r
  | _ :: _ => .crash "interface conversion: interface is not float64"

/-- The shared `reflect.Uint*`, `reflect.Int*`, `reflect.Float64`,
`reflect.Ptr` kind switch of the integer case of `coerceAbiParameter`; a
`Ptr` kind with a non-float value falls through the switch without a return
and reaches the final unhandled-type error. -/
def coerceIntKind (kind : ReflectKind) (v : GoValue) : GoRes PackValue :=
  match kind with
  | .uintK | .uint8K | .uint16K | .uint32K | .uint64K
  | .intK | .int8K | .int16K | .int32K | .int64K =>
    match v with
    | .vInt64 i => .ok (.pBig i)
    | _ => .crash "interface conversion: interface is not int64"
  | .float64K =>
    match v with
    | .vFloat64 i => .ok (.pBig i)
    | _ => .crash "interface conversion: interface is not float64"
  | .ptrK =>
    match v with
    | .vFloat64 i => .ok (.pBig i)
    | _ => .fail "Failed to coerce parameter for abi encoding; unhandled type"
  | .otherK =>
    match v with
    | .vBytes bs => .ok (readIntegerBig bs)
    | _ => .crash "interface conversion: interface is not a byte slice"

/-- The `return v, nil` of the bytes case of `coerceAbiParameter`: the
interface travels unchanged; the embedding records its underlying dynamic
type as a `PackValue`. -/
def packValueOfGo (v : GoValue) : PackValue :=
  match v with
  | .vBool b => .pBool b
  | .vString s => .pString s
  | .vBytes bs => .pBytes bs
  | .vInt64 i => .pInt64 i
  | .vFloat64 i => .pFloat64 i
  | .vList vs => .pIfaceList vs

/-- The slice/array arm of `coerceAbiParameter`. The `[]byte` case asserts
the `[]byte` value to `[]interface{}` for its length argument and therefore
panics before `forEachUnpack` runs; the `string` case reaches
`forEachUnpack`, which errors for a nonempty string (`32*size` exceeds the
buffer) and returns the reflect-made empty value for an empty one; the
default case applies the `uint256[]` fallback (`make([]*big.Int, t.Size)`
followed by appends) when the string kind matches and otherwise falls
through to the unhandled-type error. -/
def coerceSliceArray (t : AbiType) (size : Nat) (stringKind : String) (v : GoValue) : GoRes PackValue :=
  match v with
  | .vBytes _ => .crash "interface conversion: interface is not a slice of interface"
  | .vString s =>
    if s.length = 0 then .ok (.pZeroValue t)
    else .fail "abi: cannot marshal in to go array: offset would go over slice boundary"
  | _ =>
    if stringKind = "uint256[]" then
      match v with
      | .vList vs =>
        match floatsOfList vs with
        | .ok floats => .ok (.pBigList (List.replicate size none ++ floats))
        | .fail e => .fail e
        | .crash e => .crash e
      | _ => .crash "interface conversion: interface is not a slice of interface"
    else .fail "Failed to coerce parameter for abi encoding; unhandled type"

/-- Embedding of `coerceAbiParameter` (`api/privacy/models.go`). Failed Go
type assertions are `crash`; the explicit error returns are `fail`. -/
def coerceAbiParameter (t : AbiType) (v : GoValue) : GoRes PackValue :=
  match t with
  | .sliceTy size stringKind => coerceSliceArray (.sliceTy size stringKind) size stringKind v
  | .arrayTy size stringKind => coerceSliceArray (.arrayTy size stringKind) size stringKind v
  | .stringTy =>
    match v with
    | .vBytes bs => .ok (.pString (bytesStr bs))
    | _ => .crash "interface conversion: interface is not a byte slice"
  | .intTy _ kind => coerceIntKind kind v
  | .uintTy _ kind => coerceIntKind kind v
  | .boolTy =>
    match v with
    | .vBool b => .ok (.pBool b)
    | _ => .crash "interface conversion: interface is not bool"
  | .addressTy =>
    match v with
    | .vString s => .ok (.pAddress (hexToAddress s))
    | .vBytes bs => .ok (.pAddress (leftPadTrunc 20 bs))
    | _ => .crash "interface conversion: interface is not a byte slice"
  | .hashTy =>
    match v with
    | .vBytes bs => .ok (.pHash (leftPadTrunc 32 bs))
    | _ => .crash "interface conversion: interface is not a byte slice"
  | .bytesTy => .ok (packValueOfGo v)
  | .fixedBytesTy size =>
    match v with
    | .vString s => readFixedBytes size (strBytes s)
    | _ => .crash "interface conversion: interface is not string"
  | .functionTy =>
    match v with
    | .vBytes bs => readFunctionType bs
    | _ => .crash "interface conversion: interface is not a byte slice"

/-- Model of `abi.Argument`: a named, typed method input. -/
structure AbiArg where
  name : String
  type : AbiType
deriving DecidableEq

/-- Model of `abi.Method` restricted to the fields `EncodeABI` consults: the name,
the 4-byte selector `method.Id()` (derived data of the parsed descriptor),
and the ordered inputs. -/
structure AbiMethod where
  name : String
  id : List Nat
  inputs : List AbiArg
deriving DecidableEq

/-- Model of `t.requiresLengthPrefix()`: dynamic types referenced by an offset word. -/
def requiresLenPre : AbiType → Bool
  | .stringTy | .bytesTy | .sliceTy _ _ => true
  | _ => false

/-- Head size of one argument in the offset computation of
`Arguments.Pack`: arrays contribute `32 * size`, everything else one word. -/
def headSize : AbiType → Nat
  | .arrayTy size _ => 32 * size
  | _ => 32

/-- Model of `math.U256` of a signed value: reduction modulo `2^256`. -/
def intU256 (i : Int) : Nat :=
  (i % (2 ^ 256 : Nat)).toNat

/-- go-ethereum `typeCheck`: the reflect type of the value must match the
Go type the ABI type expects (`sliceTypeCheck` for slices and arrays, kind
equality plus a length check for fixed bytes otherwise). -/
def typeCheckPack : AbiType → PackValue → Bool
  | .intTy size kind, p =>
    match kind, p with
    | .ptrK, .pBig _ => true
    | .int64K, .pInt64 _ => true
    | .int8K, .pInt w _ | .int16K, .pInt w _ | .int32K, .pInt w _
    | .int64K, .pInt w _ | .intK, .pInt w _ => w = size
    | _, _ => false
  | .uintTy size kind, p =>
    match kind, p with
    | .ptrK, .pBig _ => true
    | .uint8K, .pUint w _ | .uint16K, .pUint w _ | .uint32K, .pUint w _
    | .uint64K, .pUint w _ | .uintK, .pUint w _ => w = size
    | _, _ => false
  | .boolTy, .pBool _ => true
  | .stringTy, .pString _ => true
  | .addressTy, .pAddress _ => true
  | .hashTy, .pHash _ => true
  | .bytesTy, .pBytes _ => true
  | .fixedBytesTy size, .pFixedBytes s _ => s = size
  | .functionTy, .pFuncTy _ => true
  | .sliceTy _ stringKind, .pBigList _ => stringKind = "uint256[]"
  | .sliceTy size stringKind, .pZeroValue t => t = .sliceTy size stringKind
  | .arrayTy size stringKind, .pZeroValue t => t = .arrayTy size stringKind
  | _, _ => false

/-- Model of `packBytesSlice`: a length word followed by the right-padded content. -/
def packBytesSlice (bs : List Nat) : List Nat :=
  natToBEBytes 32 bs.length ++ rightPad32 bs

/-- Pack the elements of a `[]*big.Int` slice; a nil element panics inside
`math.U256`. -/
def packBigList : List (Option Int) → GoRes (List Nat)
  | [] => .ok []
  | some i :: rest =>
    match packBigList rest with
    | .ok bs => .ok (natToBEBytes 32 (intU256 i) ++ bs)
    | r => r
  | none :: _ => .crash "runtime error: invalid memory address or nil pointer dereference"

/-- Model of `Type.pack` on a type-checked value: `packElement` for scalars, the
element loop plus `packBytesSlice` for slices, right-padding for the
byte-array shapes. -/
def packOneChecked (t : AbiType) (p : PackValue) : GoRes (List Nat) :=
  match t, p with
  | _, .pBig i => .ok (natToBEBytes 32 (intU256 i))
  | _, .pUint _ n => .ok (natToBEBytes 32 n)
  | _, .pInt _ i => .ok (natToBEBytes 32 (intU256 i))
  | _, .pInt64 i => .ok (natToBEBytes 32 (intU256 i))
  | _, .pBool b => .ok (List.replicate 31 0 ++ [if b then 1 else 0])
  | _, .pAddress bs => .ok (leftPadTrunc 32 bs)
  | _, .pHash bs => .ok (leftPadTrunc 32 bs)
  | _, .pString s => .ok (packBytesSlice (strBytes s))
  | _, .pBytes bs => .ok (packBytesSlice bs)
  | _, .pFixedBytes _ bs => .ok (rightPad32 bs)
  | _, .pFuncTy bs => .ok (rightPad32 bs)
  | _, .pBigList vs =>
    match packBigList vs with
    | .ok packed => .ok (natToBEBytes 32 vs.length ++ packed)
    | r => r
  | .sliceTy _ _, .pZeroValue _ => .ok (natToBEBytes 32 0)
  | .arrayTy size _, .pZeroValue _ => .ok (List.replicate (32 * size) 0)
  | _, _ => .fail "abi: cannot pack unsupported value"

/-- One argument of `Arguments.Pack`: type check then pack. -/
def packOne (t : AbiType) (p : PackValue) : GoRes (List Nat) :=
  if typeCheckPack t p then packOneChecked t p
  else .fail "abi: cannot use value as argument"

/-- The head/tail assembly loop of `Arguments.Pack`: static arguments go in
the head, dynamic arguments contribute an offset word pointing into the
variable section appended at the end. -/
def packArgsLoop : List (AbiArg × PackValue) → Nat → List Nat → List Nat → GoRes (List Nat)
  | [], _, ret, variableInput => .ok (ret ++ variableInput)
  | (input, arg) :: rest, inputOffset, ret, variableInput =>
    match packOne input.type arg with
    | .ok packed =>
      if requiresLenPre input.type then
        packArgsLoop rest inputOffset
          (ret ++ natToBEBytes 32 (inputOffset + variableInput.length)) (variableInput ++ packed)
      else packArgsLoop rest inputOffset (ret ++ packed) variableInput
    | .fail e => .fail e
    | .crash e => .crash e

/-- go-ethereum `Arguments.Pack`: errors on an argument count mismatch,
then packs argument-by-argument. -/
def abiPack (inputs : List AbiArg) (args : List PackValue) : GoRes (List Nat) :=
  if args.length ≠ inputs.length then .fail "argument count mismatch"
  else packArgsLoop (inputs.zip args) (inputs.foldl (fun acc i => acc + headSize i.type) 0) [] []

/-- The post-coercion adjustment in `EncodeABI`: a parameter whose dynamic
type is `string` is converted to `[]byte`. -/
def stringToBytesAdjust : PackValue → PackValue
  | .pString s => .pBytes (strBytes s)
  | p => p

/-- The parameter loop of `EncodeABI` over the supplied parameters zipped
with the declared inputs (the loop breaks once the inputs are exhausted):
a parameter whose coercion errors is logged and skipped, a panic inside a
coercion propagates, a successful coercion is adjusted and appended. -/
def encodeLoop : List (GoValue × AbiArg) → GoRes (List PackValue)
  | [] => .ok []
  | (v, input) :: rest =>
    match coerceAbiParameter input.type v with
    | .crash e => .crash e
    | .fail _ => encodeLoop rest
    | .ok p =>
      match encodeLoop rest with
      | .ok ps => .ok (stringToBytesAdjust p :: ps)
      | r => r

/-- Embedding of `EncodeABI` (`api/privacy/models.go`): coerce the
parameters against the declared inputs, pack them, and prefix the selector. -/
def EncodeABI (method : AbiMethod) (params : List GoValue) : GoRes (List Nat) :=
  match encodeLoop (params.zip method.inputs) with
  | .crash e => .crash e
  | .fail e => .fail e
  | .ok args =>
    match abiPack method.inputs args with
    | .ok encodedArgs => .ok (method.id ++ encodedArgs)
    | .fail e => .fail e
    | .crash e => .crash e

/-- An example descriptor used to evaluate the encoder on concrete inputs:
one declared input of type `uint256` (reflect kind `Ptr`), with an
arbitrary selector. -/
def exUint256Method : AbiMethod :=
  ⟨"transfer", [169, 5, 156, 187], [⟨"amount", .uintTy 256 .ptrK⟩]⟩

/-! ## Dynamic-type offset decoding -/

/-- Embedding of `lengthPrefixPointsTo` (`api/privacy/models.go`): reads
the offset word at `index`, adds 32 (so `bigOffsetEnd` is the end of the
length word), checks it against the buffer length and against `int64`
range (`BitLen() > 63` is `2^63 ≤ n` for the nonnegative values involved),
reads the length word, checks `offsetEnd + length` against `int64` range
and the buffer length, and returns the content start and length. All
arithmetic is arbitrary-precision (`big.Int` in the source). -/
def lengthPrefixPointsTo (index : Nat) (output : List Nat) : GoRes (Nat × Nat) :=
  let bigOffsetEnd := beBytesToNat ((output.drop index).take 32) + 32
  let outputLength := output.length
  if bigOffsetEnd > outputLength then
    .fail "abi: cannot marshal in to go slice: offset would go over slice boundary"
  else if 2 ^ 63 ≤ bigOffsetEnd then
    .fail "abi offset larger than int64"
  else
    let offsetEnd := bigOffsetEnd
    let lengthBig := beBytesToNat ((output.drop (offsetEnd - 32)).take 32)
    let totalSize := bigOffsetEnd + lengthBig
    if 2 ^ 63 ≤ totalSize then
      .fail "abi length larger than int64"
    else if totalSize > outputLength then
      .fail "abi: cannot marshal in to go type: length insufficient"
    else
      .ok (offsetEnd, lengthBig)

/-- A concrete 64-byte output buffer: the word at index 0 is the offset 32,
the length word at offset 32 is 0 (an empty dynamic value). -/
def exDynOutput : List Nat :=
  List.replicate 31 0 ++ [32] ++ List.replicate 32 0

/-! ## Chain configuration cache

Embedding of `GetChainConfig` and the `chainConfigs` map. The only
`params.ChainConfig` object the source ever touches is the process-global
`params.MainnetChainConfig`: `cfg := params.MainnetChainConfig` copies the
pointer, `cfg.ChainID = ...` mutates the shared object, and every cache
entry stores that same pointer. The state therefore consists of the
mutable `ChainID` of the global mainnet config plus the set of network ids
present in the cache map (each mapped to the global config). -/

/-- The digit-scanning loop of `strconv.ParseUint(s, 10, 0)`: an invalid
character yields value 0 with an error (ErrSyntax); exceeding the 64-bit
range yields the max value with an error (ErrRange); the boolean is true
exactly when no error occurred. -/
def parseUintLoop : List Char → Nat → Nat × Bool
  | [], n => (n, true)
  | c :: rest, n =>
    if c.isDigit then
      let n2 := n * 10 + (c.toNat - 48)
      if 2 ^ 64 ≤ n2 then (2 ^ 64 - 1, false)
      else parseUintLoop rest n2
    else (0, false)

/-- Model of `strconv.ParseUint(networkID, 10, 0)` (bit size 0 is the
64-bit platform uint). -/
def parseUint10 (s : String) : Nat × Bool :=
  if s.data = [] then (0, false) else parseUintLoop s.data 0

/-- Go `int64(u)` conversion of a uint64 value. -/
def int64OfUint64 (n : Nat) : Int :=
  if n < 2 ^ 63 then (n : Int) else (n : Int) - 2 ^ 64

/-- The shared chain-configuration state: the `ChainID` of the global
mainnet config object and the ids cached in `chainConfigs`. -/
structure ChainCfgState where
  mainnetChainID : Int
  cached : List String
deriving DecidableEq

/-- Process start: `params.MainnetChainConfig.ChainID` is 1 and the
`chainConfigs` map is empty. -/
def initialChainCfgState : ChainCfgState :=
  ⟨1, []⟩

/-- Embedding of `GetChainConfig` (`ethereum.go` and its duplicate):
return the cached config when present; otherwise parse the network id and
— only when the parse FAILED (`if err != nil`) — overwrite the global
config's `ChainID` with `int64` of the parse result and cache the id. The
returned value is the `ChainID` carried by the returned config pointer. -/
def GetChainConfigM (networkID : String) (st : ChainCfgState) : Int × ChainCfgState :=
  if networkID ∈ st.cached then (st.mainnetChainID, st)
  else
    let pr := parseUint10 networkID
    if pr.2 then (st.mainnetChainID, st)
    else
      let newID := int64OfUint64 pr.1
      (newID, ⟨newID, networkID :: st.cached⟩)

/-! ## Peer count -/

/-- The JSON-RPC outcomes `GetPeerCount` can observe: each invocation of
`InvokeJsonRpcClient` either fails or populates the response whose
`Result` field is an arbitrary JSON value (`GoValue`). -/
structure PeerCountEnv where
  netPeerCount : GoRes GoValue
  parityNetPeers : GoRes GoValue

/-- Embedding of `GetPeerCount` (`ethereum.go` and its duplicate). On a
primary (`net_peerCount`) failure the code invokes `parity_netPeers` into a
shadowed `err` and then unconditionally logs `err.Error()` and returns 0:
when the fallback SUCCEEDED that `err` is nil and `err.Error()` is a nil
pointer dereference (a panic); when the fallback also failed it returns 0.
On primary success a string result is decoded via `hexutil.DecodeUint64`
(decode failure returns 0) and a non-string result leaves the zero value. -/
def GetPeerCountM (env : PeerCountEnv) : GoRes Nat :=
  match env.netPeerCount with
  | .crash e => .crash e
  | .fail _ =>
    match env.parityNetPeers with
    | .crash e => .crash e
    | .fail _ => .ok 0
    | .ok _ => .crash "runtime error: invalid memory address or nil pointer dereference"
  | .ok result =>
    match result with
    | .vString s =>
      match decodeUint64Hex s with
      | some n => .ok n
      | none => .ok 0
    | _ => .ok 0

/-- The C8 failing scenario: the primary method is unsupported and the
fallback succeeds, reporting five peers. -/
def exPeerCountEnv : PeerCountEnv :=
  ⟨.fail "the method net_peerCount does not exist", .ok (.vString "0x5")⟩

/-! ## Connection pool interleaving model

Embedding of `ResolveJsonRpcClient` for one network id under two
concurrent callers with successful dials. The function performs three
observable steps: (1) read `networkClients := ethrpcClients[networkID]`
and test `len == 0` — OUTSIDE the mutex, keeping the read slice; (2)
`ethrpc.Dial` — outside the mutex; (3) lock, assign
`ethrpcClients[networkID] = append(networkClients, client)` — over the
STALE slice captured in step (1), not the current map entry — and
unlock. Clients are identified by fresh numbers handed out by dials. -/

/-- Program counter of one caller inside `ResolveJsonRpcClient`. The
dialing states carry `networkClients`, the slice read at the unguarded
empty-check, because the locked assignment appends to that captured
slice. -/
inductive ThreadPC where
  | start
  | willDial (networkClients : List Nat)
  | willInsert (networkClients : List Nat) (c : Nat)
  | done (c : Nat)
deriving DecidableEq

/-- Shared state: the cached client list for the network id, the next
fresh client id, and both callers. -/
structure RaceState where
  clients : List Nat
  nextClientId : Nat
  threadA : ThreadPC
  threadB : ThreadPC
deriving DecidableEq

/-- One atomic step of a caller: the unguarded empty-check (capturing the
read slice, or returning the cached `clients[0]` when nonempty), the
dial, or the locked assignment of the captured slice plus the new
client. -/
def stepThread (pc : ThreadPC) (clients : List Nat) (fresh : Nat) :
    ThreadPC × List Nat × Nat :=
  match pc with
  | .start =>
    if clients.length = 0 then (.willDial clients, clients, fresh)
    else (.done (clients.headD 0), clients, fresh)
  | .willDial networkClients => (.willInsert networkClients fresh, clients, fresh + 1)
  | .willInsert networkClients c => (.done c, networkClients ++ [c], fresh)
  | .done c => (.done c, clients, fresh)

/-- Schedule one step of thread A (`false`) or thread B (`true`). -/
def stepRace (s : RaceState) (which : Bool) : RaceState :=
  if which then
    let (pc, cs, f) := stepThread s.threadB s.clients s.nextClientId
    ⟨cs, f, s.threadA, pc⟩
  else
    let (pc, cs, f) := stepThread s.threadA s.clients s.nextClientId
    ⟨cs, f, pc, s.threadB⟩

/-- Run a schedule of interleaved steps. -/
def runRace (sched : List Bool) (s : RaceState) : RaceState :=
  sched.foldl stepRace s

/-- Both callers enter `ResolveJsonRpcClient` with an empty cache. -/
def initRaceState : RaceState :=
  ⟨[], 0, .start, .start⟩

/-- The racy schedule: both callers pass the unguarded empty-check before
either inserts, then both dial and both append. -/
def exRaceSchedule : List Bool :=
  [false, true, false, true, false, true]

/-! ## Network status -/

/-- Model of `ethereum.SyncProgress` restricted to the fields the source reads. -/
structure SyncProgress where
  currentBlock : Nat
  highestBlock : Nat
deriving DecidableEq

/-- The latest-block header fields `GetNetworkStatus` decodes (hex-string
encoded on the wire). -/
structure BlockHeader where
  number : String
  timestamp : String
deriving DecidableEq

/-- The RPC outcomes `GetNetworkStatus` can observe. `dial` is the
`DialJsonRpc` result (which already includes its internal liveness probe):
an error, or a possibly-nil client. `syncProgress` is the second
`GetSyncProgress` call made directly by `GetNetworkStatus`. `chainID` is
the `GetChainID` result (nil on failure), `peerCount` and
`protocolVersion` come from their own wrappers, and `latestBlock` from
`GetLatestBlock`. -/
structure NetworkStatusEnv where
  dial : GoRes (Option Unit)
  syncProgress : GoRes (Option SyncProgress)
  chainID : Option Int
  peerCount : Nat
  protocolVersion : Option String
  latestBlock : GoRes BlockHeader

/-- The `NetworkStatus` result struct; the `meta` map is represented by
its two possible entries: the diagnostic `error` message and whether the
`last_block_header` entry is present. -/
structure NetworkStatus where
  block : Nat
  height : Option Nat
  chainID : Option String
  peerCount : Nat
  lastBlockAt : Option Nat
  protocolVersion : Option String
  state : Option String
  syncing : Bool
  metaError : Option String
  metaHasHeader : Bool
deriving DecidableEq

/-- Model of `hexutil.EncodeBig`: `0x%x` formatting of a big integer. -/
def encodeBigHex (i : Int) : String :=
  if i < 0 then "-0x" ++ ⟨Nat.toDigits 16 (-i).toNat⟩
  else "0x" ++ ⟨Nat.toDigits 16 i.toNat⟩

/-- A degraded "configuring" status with a diagnostic message and all
other fields at their zero values. -/
def configuringStatus (msg : String) : NetworkStatus :=
  ⟨0, none, none, 0, none, none, stringOrNil "configuring", false, some msg, false⟩

/-- Embedding of `GetNetworkStatus` (`ethereum.go`). When the dial errors,
the RPC URL is empty, or the client is unresolved, a successful
"configuring" status carrying a diagnostic message is returned (never an
error). Otherwise the flow mirrors the source: a sync-progress failure is
returned as an error; a nil `GetChainID` result panics inside
`hexutil.EncodeBig`; a synced node reports the decoded latest header,
while a syncing node reports current/highest blocks with an empty state
string (which `stringOrNil` turns into nil). Panics recovered by the
deferred handler in the source are outside this model; the environments
used in the theorems are panic-free. -/
def GetNetworkStatusM (env : NetworkStatusEnv) (networkID rpcURL : String) :
    GoRes NetworkStatus :=
  match env.dial with
  | .crash e => .crash e
  | .fail e => .ok (configuringStatus e)
  | .ok client =>
    if rpcURL = "" then
      .ok (configuringStatus "No full-node JSON-RPC URL configured or resolvable")
    else
      match client with
      | none => .ok (configuringStatus "Configured full-node JSON-RPC client not resolved")
      | some _ =>
        match env.syncProgress with
        | .crash e => .crash e
        | .fail e => .fail e
        | .ok progress =>
          match env.chainID with
          | none => .crash "runtime error: invalid memory address or nil pointer dereference"
          | some cid =>
            match progress with
            | none =>
              match env.latestBlock with
              | .crash e => .crash e
              | .fail e => .fail e
              | .ok hdr =>
                match decodeUint64Hex hdr.number with
                | none => .fail "Unable to decode block number hex"
                | some blk =>
                  match decodeUint64Hex hdr.timestamp with
                  | none => .fail "Unable to decode block timestamp hex"
                  | some ts =>
                    .ok ⟨blk, none, stringOrNil (encodeBigHex cid), env.peerCount,
                         some ts, env.protocolVersion, stringOrNil "synced", false,
                         none, true⟩
            | some p =>
              .ok ⟨p.currentBlock, some p.highestBlock, stringOrNil (encodeBigHex cid),
                   env.peerCount, none, env.protocolVersion, stringOrNil "", true,
                   none, false⟩

/-- An unreachable-node environment: the dial (including its liveness
probe) fails. -/
def exNetEnvDown : NetworkStatusEnv :=
  ⟨.fail "dial tcp: connection refused", .ok none, none, 0, none,
   .fail "connection refused"⟩

/-! ## Transaction signing

Embedding of `SignTx` (`ethereum.go`, the variant taking an explicit gas
limit). Network interaction is an environment of RPC outcomes, and the
model additionally returns the ordered trace of network calls performed
before it returned. The chain-specific signing hash and the ECDSA
signature are parameters (`hashFn`, `signFn`); the private-key parse
(`ethcrypto.HexToECDSA`) is modelled from the go-ethereum source: strict
hex decoding, a 32-byte length requirement, and the secp256k1 group-order
range check. -/

/-- The order of the secp256k1 group (`secp256k1_N`). -/
def secp256k1N : Nat :=
  115792089237316195423570985008687907852837564279074904382605163141518161494337

/-- Model of `ethcrypto.HexToECDSA`: strict hex decode, then `ToECDSA`
with strict length and range checks; returns the 32 private key bytes. -/
def hexToECDSA (s : String) : GoRes (List Nat) :=
  match hexDecode s with
  | none => .fail "invalid hex string"
  | some bs =>
    if bs.length ≠ 32 then .fail "invalid length, need 256 bits"
    else
      let d := beBytesToNat bs
      if secp256k1N ≤ d then .fail "invalid private key, must be less than N"
      else if d = 0 then .fail "invalid private key, zero or negative"
      else .ok bs

/-- One network interaction performed by `SignTx`. -/
inductive NetEvent where
  | dialE
  | syncProgressE
  | blockNumberE
  | nonceE
  | gasPriceE
  | estimateGasE
deriving DecidableEq

/-- The RPC outcomes `SignTx` can observe, in call order: `DialJsonRpc`
(including its internal liveness probe), the direct `GetSyncProgress`
call, `GetLatestBlockNumber`, `PendingNonceAt`, `SuggestGasPrice` (whose
error the source discards), and `EstimateGas`. -/
structure EthEnv where
  dial : GoRes Unit
  syncProgress : GoRes (Option SyncProgress)
  latestBlockNumber : GoRes Nat
  pendingNonce : GoRes Nat
  suggestedGasPrice : Nat
  estimateGas : GoRes Nat

/-- The pre-signature transaction fields (`types.NewTransaction` /
`types.NewContractCreation`); a `none` recipient is contract creation. -/
structure EthTx where
  nonce : Nat
  toAddr : Option (List Nat)
  value : Int
  gasLimit : Nat
  gasPrice : Nat
  data : List Nat
deriving DecidableEq

/-- A signed transaction: the fields plus the recoverable signature. -/
structure SignedTx where
  tx : EthTx
  sig : List Nat
deriving DecidableEq

/-- The tail of `SignTx` after all RPC results are in hand: construct the
transaction (call or contract creation), compute the signing hash, parse
the private key, sign, and attach the signature. `trace` is the list of
network calls already performed; no further network interaction occurs. -/
def signTxFinish (cfgChainID : Int) (blockNumber nonce gasPrice : Nat) (txData : List Nat)
    (hashFn : Int → Nat → EthTx → List Nat)
    (signFn : List Nat → List Nat → GoRes (List Nat))
    (privateKey : String) (toAddr : Option String) (val : Int) (gasLimit : Nat)
    (trace : List NetEvent) : GoRes SignedTx × List NetEvent :=
  let tx : EthTx := ⟨nonce, toAddr.map hexToAddress, val, gasLimit, gasPrice, txData⟩
  let hash := hashFn cfgChainID blockNumber tx
  match hexToECDSA privateKey with
  | .fail _ => (.fail "Failed read private key bytes prior to signing tx", trace)
  | .crash e => (.crash e, trace)
  | .ok key =>
    match signFn hash key with
    | .fail _ =>
      match toAddr with
      | none => (.crash "runtime error: invalid memory address or nil pointer dereference", trace)
      | some _ => (.fail "Failed to sign tx", trace)
    | .crash e => (.crash e, trace)
    | .ok sig => (.ok ⟨tx, sig⟩, trace)

/-- Embedding of `SignTx` (`ethereum.go`): dial, probe sync progress,
resolve chain config (pure map access), fetch the latest block number, the
pending nonce and the suggested gas price, estimate gas when the supplied
gas limit is zero, build the transaction, and only then parse the private
key and sign. The second component is the trace of network calls
performed. A signing failure with a nil recipient panics formatting the
error message (`*to`). -/
def SignTxModel (env : EthEnv) (cfgState : ChainCfgState)
    (hashFn : Int → Nat → EthTx → List Nat)
    (signFn : List Nat → List Nat → GoRes (List Nat))
    (networkID rpcURL fromAddr privateKey : String)
    (toAddr dataHex : Option String) (val : Int) (gasLimit : Nat) :
    GoRes SignedTx × List NetEvent :=
  match env.dial with
  | .fail e => (.fail e, [.dialE])
  | .crash e => (.crash e, [.dialE])
  | .ok _ =>
    match env.syncProgress with
    | .fail e => (.fail e, [.dialE, .syncProgressE])
    | .crash e => (.crash e, [.dialE, .syncProgressE])
    | .ok _ =>
      let cfgChainID := (GetChainConfigM networkID cfgState).1
      match env.latestBlockNumber with
      | .fail e => (.fail e, [.dialE, .syncProgressE, .blockNumberE])
      | .crash e => (.crash e, [.dialE, .syncProgressE, .blockNumberE])
      | .ok blockNumber =>
        match env.pendingNonce with
        | .fail e => (.fail e, [.dialE, .syncProgressE, .blockNumberE, .nonceE])
        | .crash e => (.crash e, [.dialE, .syncProgressE, .blockNumberE, .nonceE])
        | .ok nonce =>
          let gasPrice := env.suggestedGasPrice
          let txData := match dataHex with | some d => goFromHex d | none => []
          match gasLimit, env.estimateGas with
          | 0, .fail _ =>
            (.fail "Failed to estimate gas for tx",
             [.dialE, .syncProgressE, .blockNumberE, .nonceE, .gasPriceE, .estimateGasE])
          | 0, .crash e =>
            (.crash e,
             [.dialE, .syncProgressE, .blockNumberE, .nonceE, .gasPriceE, .estimateGasE])
          | 0, .ok gasEstimate =>
            signTxFinish cfgChainID blockNumber nonce gasPrice txData hashFn signFn
              privateKey toAddr val gasEstimate
              [.dialE, .syncProgressE, .blockNumberE, .nonceE, .gasPriceE, .estimateGasE]
          | Nat.succ g, _ =>
            signTxFinish cfgChainID blockNumber nonce gasPrice txData hashFn signFn
              privateKey toAddr val (Nat.succ g)
              [.dialE, .syncProgressE, .blockNumberE, .nonceE, .gasPriceE]

/-- A healthy-network environment for evaluating `SignTx` concretely. -/
def exEthEnv : EthEnv :=
  ⟨.ok (), .ok none, .ok 100, .ok 7, 1000000000, .ok 21000⟩

/-! ## Keystore encryption (`MarshalEncryptedKey`)

The scrypt KDF, the AES block permutation and Keccak-256 are parameters;
the CTR keystream construction, the XOR, the MAC composition and the
record layout are embedded from the source. Randomness (salt, IV, record
UUID) is passed in by the caller, mirroring the `crypto/rand` reads. -/

/-- The scrypt parameters of `MarshalEncryptedKey`: `LightScryptN = 1 << 12`. -/
def scryptLightN : Nat := 2 ^ 12

def scryptLightP : Nat := 6

def scryptR : Nat := 4

def scryptDKLen : Nat := 32

/-- CTR-mode keystream: the block function applied to the IV interpreted
as a 128-bit big-endian counter, incremented per block. -/
def ctrKeystream (encBlock : List Nat → List Nat) (iv : List Nat) (nblocks : Nat) : List Nat :=
  (List.range nblocks).flatMap fun i =>
    encBlock (natToBEBytes 16 ((beBytesToNat iv + i) % 2 ^ 128))

/-- XOR of the input with as much keystream as it needs
(`cipher.NewCTR` + `XORKeyStream`). -/
def ctrXorBytes (encBlock : List Nat → List Nat) (inText iv : List Nat) : List Nat :=
  List.zipWith Nat.xor inText (ctrKeystream encBlock iv ((inText.length + 15) / 16))

/-- Embedding of `aesCTRXOR` (`ethereum.go`): `aes.NewCipher` rejects key
sizes other than 16, 24 or 32 bytes; otherwise the input is XORed with the
CTR keystream of the block cipher under `key`. -/
def aesCTRXOR (aesEnc : List Nat → List Nat → List Nat) (key inText iv : List Nat) :
    GoRes (List Nat) :=
  if key.length = 16 ∨ key.length = 24 ∨ key.length = 32 then
    .ok (ctrXorBytes (aesEnc key) inText iv)
  else .fail "crypto/aes: invalid key size"

/-- The `crypto` object of the version-3 web3 keystore record; the
`kdfparams` map is represented by its five entries. -/
structure CryptoJSON where
  cipher : String
  ciphertext : String
  cipherparamsIV : String
  kdf : String
  kdfparamsN : Nat
  kdfparamsR : Nat
  kdfparamsP : Nat
  kdfparamsDKLen : Nat
  kdfparamsSalt : String
  mac : String
deriving DecidableEq

/-- The version-3 web3 keystore record (`web3v3`). -/
structure Web3V3 where
  id : String
  address : String
  crypto : CryptoJSON
  version : Nat
deriving DecidableEq

/-- Embedding of `MarshalEncryptedKey` (`ethereum.go`): derive 32 key
bytes by scrypt from the passphrase and salt with n=4096, r=4, p=6;
encrypt the private key bytes with AES-128-CTR under the first 16 derived
bytes and the supplied IV; MAC = Keccak256 of derived bytes 16..32
concatenated with the ciphertext; package everything hex-encoded into the
versioned record. -/
def MarshalEncryptedKey
    (scryptKey : List Nat → List Nat → Nat → Nat → Nat → Nat → List Nat)
    (aesEnc : List Nat → List Nat → List Nat) (keccak256 : List Nat → List Nat)
    (keyUUID : String) (addr privKeyBytes : List Nat) (secret : String)
    (salt iv : List Nat) : GoRes Web3V3 :=
  let derivedKey := scryptKey (strBytes secret) salt scryptLightN scryptR scryptLightP scryptDKLen
  let encryptKey := derivedKey.take 16
  match aesCTRXOR aesEnc encryptKey privKeyBytes iv with
  | .fail e => .fail e
  | .crash e => .crash e
  | .ok cipherText =>
    let mac := keccak256 ((derivedKey.drop 16).take 16 ++ cipherText)
    .ok ⟨keyUUID, hexEncode addr,
         ⟨"aes-128-ctr", hexEncode cipherText, hexEncode iv, "scrypt",
          scryptLightN, scryptR, scryptLightP, scryptDKLen, hexEncode salt,
          hexEncode mac⟩,
         3⟩

/-- Modelled from the spec: the version-3 keystore decryption procedure
(no decryption routine exists in the source) — re-derive the key via
scrypt from the stored salt and KDF parameters, verify the MAC
(Keccak256 of derived bytes 16..32 concatenated with the ciphertext)
against the stored one, treating a mismatch as a decrypt error, and only
then apply AES-128-CTR with the stored IV to the stored ciphertext. -/
def decryptKeystoreRecord
    (scryptKey : List Nat → List Nat → Nat → Nat → Nat → Nat → List Nat)
    (aesEnc : List Nat → List Nat → List Nat) (keccak256 : List Nat → List Nat)
    (record : Web3V3) (secret : String) : GoRes (List Nat) :=
  match hexDecode record.crypto.kdfparamsSalt, hexDecode record.crypto.ciphertext,
      hexDecode record.crypto.cipherparamsIV with
  | some salt, some cipherText, some iv =>
    let derivedKey := scryptKey (strBytes secret) salt record.crypto.kdfparamsN
      record.crypto.kdfparamsR record.crypto.kdfparamsP record.crypto.kdfparamsDKLen
    let calculatedMAC := keccak256 ((derivedKey.drop 16).take 16 ++ cipherText)
    if hexEncode calculatedMAC ≠ record.crypto.mac then
      .fail "could not decrypt key with given password"
    else
      aesCTRXOR aesEnc (derivedKey.take 16) cipherText iv
  | _, _, _ => .fail "invalid hex in keystore record"

/-- The scrypt-derived key of `MarshalEncryptedKey` for a passphrase and
salt (with the fixed light parameters of the source). -/
def derivedKeyOf (scryptKey : List Nat → List Nat → Nat → Nat → Nat → Nat → List Nat)
    (secret : String) (salt : List Nat) : List Nat :=
  scryptKey (strBytes secret) salt scryptLightN scryptR scryptLightP scryptDKLen

/-- The ciphertext `MarshalEncryptedKey` produces for the given inputs. -/
def cipherTextOf (scryptKey : List Nat → List Nat → Nat → Nat → Nat → Nat → List Nat)
    (aesEnc : List Nat → List Nat → List Nat) (secret : String)
    (salt privKeyBytes iv : List Nat) : List Nat :=
  ctrXorBytes (aesEnc ((derivedKeyOf scryptKey secret salt).take 16)) privKeyBytes iv

/-- A stand-in KDF for concrete evaluation: `dklen` zero bytes. -/
def scryptStub : List Nat → List Nat → Nat → Nat → Nat → Nat → List Nat :=
  fun _ _ _ _ _ dklen => List.replicate dklen 0

/-- A stand-in KDF whose derived key depends on the passphrase. -/
def scryptStub2 : List Nat → List Nat → Nat → Nat → Nat → Nat → List Nat :=
  fun secret _ _ _ _ _ =>
    if secret = strBytes "pw" then List.replicate 32 0
    else List.replicate 31 0 ++ [1]

/-- A stand-in block permutation for concrete evaluation. -/
def aesEncStub : List Nat → List Nat → List Nat :=
  fun _ _ => List.replicate 16 0

/-- A stand-in hash for concrete evaluation (byte-valued identity). -/
def keccakStub : List Nat → List Nat :=
  fun bs => bs.map (· % 256)

end ProvideGo

namespace ProvideGo

/-! ## Lemmas about the encode loop -/

theorem encodeLoop_crash_of_mem (l : List (GoValue × AbiArg))
    (h : ∃ p ∈ l, (coerceAbiParameter p.2.type p.1).isCrash = true) :
    ∃ e, encodeLoop l = .crash e := by
  induction l with
  | nil => simp at h
  | cons hd tl ih =>
    obtain ⟨v, input⟩ := hd
    obtain ⟨p, hp, hcr⟩ := h
    rcases List.mem_cons.mp hp with rfl | hmem
    · simp only [encodeLoop]
      cases hc : coerceAbiParameter input.type v with
      | crash e => exact ⟨e, rfl⟩
      | fail e => rw [hc] at hcr; simp [GoRes.isCrash] at hcr
      | ok q => rw [hc] at hcr; simp [GoRes.isCrash] at hcr
    · simp only [encodeLoop]
      obtain ⟨e, he⟩ := ih ⟨p, hmem, hcr⟩
      cases hc : coerceAbiParameter input.type v with
      | crash e2 => exact ⟨e2, rfl⟩
      | fail e2 => exact ⟨e, he⟩
      | ok q => rw [he]; exact ⟨e, rfl⟩

theorem encodeLoop_ok_of_no_crash (l : List (GoValue × AbiArg))
    (h : ∀ p ∈ l, (coerceAbiParameter p.2.type p.1).isCrash = false) :
    ∃ ps, encodeLoop l = .ok ps ∧ ps.length ≤ l.length ∧
      ((∃ p ∈ l, (coerceAbiParameter p.2.type p.1).isOk = false) → ps.length < l.length) := by
  induction l with
  | nil =>
    refine ⟨[], rfl, le_refl _, ?_⟩
    simp
  | cons hd tl ih =>
    obtain ⟨v, input⟩ := hd
    obtain ⟨ps, hps, hlen, hstrict⟩ := ih fun p hp => h p (List.mem_cons_of_mem _ hp)
    have hhd := h (v, input) (List.mem_cons_self _ _)
    simp only [encodeLoop]
    cases hc : coerceAbiParameter input.type v with
    | crash e => rw [hc] at hhd; simp [GoRes.isCrash] at hhd
    | fail e =>
      refine ⟨ps, hps, Nat.le_succ_of_le hlen, fun _ => Nat.lt_succ_of_le hlen⟩
    | ok q =>
      rw [hps]
      refine ⟨stringToBytesAdjust q :: ps, rfl, by simpa using Nat.succ_le_succ hlen, ?_⟩
      rintro ⟨p, hp, hnotok⟩
      rcases List.mem_cons.mp hp with rfl | hmem
      · rw [hc] at hnotok; simp [GoRes.isOk] at hnotok
      · simpa using Nat.succ_lt_succ (hstrict ⟨p, hmem, hnotok⟩)

theorem abiPack_count_mismatch (inputs : List AbiArg) (args : List PackValue)
    (h : args.length ≠ inputs.length) :
    abiPack inputs args = .fail "argument count mismatch" := by
  simp [abiPack, h]

theorem encodeABI_eq_of_loop_short (method : AbiMethod) (params : List GoValue)
    (ps : List PackValue) (hps : encodeLoop (params.zip method.inputs) = .ok ps)
    (hne : ps.length ≠ method.inputs.length) :
    EncodeABI method params = .fail "argument count mismatch" := by
  unfold EncodeABI
  rw [hps]
  dsimp only
  rw [abiPack_count_mismatch method.inputs ps hne]

theorem encodeABI_eq_crash (method : AbiMethod) (params : List GoValue) (e : String)
    (hps : encodeLoop (params.zip method.inputs) = .crash e) :
    EncodeABI method params = .crash e := by
  unfold EncodeABI
  rw [hps]

/-- Claim C1: when some supplied parameter cannot be coerced to its
declared ABI type (its coercion does not succeed), `EncodeABI` never
returns calldata — in particular no partial calldata omitting the failed
parameter — and, as long as no coercion panics, it returns a hard error
(the failed parameter is skipped, so the subsequent pack aborts with an
argument count mismatch). -/
theorem encodeABI_coercion_failure_aborts (method : AbiMethod) (params : List GoValue)
    (h : ∃ p ∈ params.zip method.inputs, (coerceAbiParameter p.2.type p.1).isOk = false) :
    (∀ bs, EncodeABI method params ≠ .ok bs) ∧
    ((∀ p ∈ params.zip method.inputs, (coerceAbiParameter p.2.type p.1).isCrash = false) →
      EncodeABI method params = .fail "argument count mismatch") := by
  have key : (∀ p ∈ params.zip method.inputs, (coerceAbiParameter p.2.type p.1).isCrash = false) →
      EncodeABI method params = .fail "argument count mismatch" := by
    intro hcr
    obtain ⟨ps, hps, hlen, hstrict⟩ := encodeLoop_ok_of_no_crash _ hcr
    have hlt := hstrict h
    have hmin : (params.zip method.inputs).length ≤ method.inputs.length := by
      rw [List.length_zip]; omega
    exact encodeABI_eq_of_loop_short method params ps hps (by omega)
  refine ⟨?_, key⟩
  intro bs hbs
  by_cases hcr : ∀ p ∈ params.zip method.inputs, (coerceAbiParameter p.2.type p.1).isCrash = false
  · rw [key hcr] at hbs
    exact GoRes.noConfusion hbs
  · push_neg at hcr
    obtain ⟨p, hp, hcrash⟩ := hcr
    simp only [ne_eq, Bool.not_eq_false] at hcrash
    obtain ⟨e, he⟩ := encodeLoop_crash_of_mem _ ⟨p, hp, hcrash⟩
    rw [encodeABI_eq_crash method params e he] at hbs
    exact GoRes.noConfusion hbs

/-- Witness for C1: a `uint256` input supplied with a `bool` value fails
coercion (the reflect-kind switch falls through to the unhandled-type
error), and the encode returns the argument count mismatch error. -/
theorem encodeABI_coercion_failure_aborts_witness :
    (∃ p ∈ ([GoValue.vBool true].zip exUint256Method.inputs),
        (coerceAbiParameter p.2.type p.1).isOk = false) ∧
    EncodeABI exUint256Method [GoValue.vBool true] = .fail "argument count mismatch" :=
  ⟨by decide,
    (encodeABI_coercion_failure_aborts exUint256Method [GoValue.vBool true]
      (by decide)).2 (by decide)⟩

/-- Claim C2 counterexample: the claim asserts that supplying fewer
arguments than declared inputs truncates and succeeds; at the concrete
method with one declared `uint256` input and an empty argument list,
`EncodeABI` instead returns the argument-count-mismatch error from the
pack step, so no calldata is returned. -/
theorem encodeABI_truncation_cex :
    EncodeABI exUint256Method [] = .fail "argument count mismatch" := by
  decide

/-- Claim C2 (amended): with fewer supplied arguments than declared inputs
(m < n), `EncodeABI` never returns calldata, and (as long as no coercion
panics) returns the argument-count-mismatch error from the pack step; the
truncation-at-the-shorter-length behavior of the parameter loop only
discards surplus arguments beyond the declared inputs. -/
theorem encodeABI_fewer_args_errors (method : AbiMethod) (params : List GoValue)
    (h : params.length < method.inputs.length) :
    (∀ bs, EncodeABI method params ≠ .ok bs) ∧
    ((∀ p ∈ params.zip method.inputs, (coerceAbiParameter p.2.type p.1).isCrash = false) →
      EncodeABI method params = .fail "argument count mismatch") := by
  have key : (∀ p ∈ params.zip method.inputs, (coerceAbiParameter p.2.type p.1).isCrash = false) →
      EncodeABI method params = .fail "argument count mismatch" := by
    intro hcr
    obtain ⟨ps, hps, hlen, _⟩ := encodeLoop_ok_of_no_crash _ hcr
    have hmin : (params.zip method.inputs).length ≤ params.length := by
      rw [List.length_zip]; omega
    exact encodeABI_eq_of_loop_short method params ps hps (by omega)
  refine ⟨?_, key⟩
  intro bs hbs
  by_cases hcr : ∀ p ∈ params.zip method.inputs, (coerceAbiParameter p.2.type p.1).isCrash = false
  · rw [key hcr] at hbs
    exact GoRes.noConfusion hbs
  · push_neg at hcr
    obtain ⟨p, hp, hcrash⟩ := hcr
    simp only [ne_eq, Bool.not_eq_false] at hcrash
    obtain ⟨e, he⟩ := encodeLoop_crash_of_mem _ ⟨p, hp, hcrash⟩
    rw [encodeABI_eq_crash method params e he] at hbs
    exact GoRes.noConfusion hbs

/-- Witness for the amended C2: zero arguments against one declared input. -/
theorem encodeABI_fewer_args_errors_witness :
    ([] : List GoValue).length < exUint256Method.inputs.length ∧
    EncodeABI exUint256Method [] = .fail "argument count mismatch" :=
  ⟨by decide, (encodeABI_fewer_args_errors exUint256Method [] (by decide)).2 (by decide)⟩

end ProvideGo

namespace ProvideGo

/-- Claim C9: for every output buffer and in-bounds offset-word index, the
dynamic-type offset decoder returns a hard boundary error (never a panic)
on any bounds violation — in particular whenever the offset word (plus its
length word) points past the buffer — and returns a start/length pair only
when start + length lies within the buffer. -/
theorem lengthPrefixPointsTo_bounds (index : Nat) (output : List Nat)
    (hidx : index + 32 ≤ output.length) :
    (∀ s l, lengthPrefixPointsTo index output = .ok (s, l) → s + l ≤ output.length) ∧
    (∀ e, lengthPrefixPointsTo index output ≠ .crash e) ∧
    (beBytesToNat ((output.drop index).take 32) + 32 > output.length →
      ∃ e, lengthPrefixPointsTo index output = .fail e) := by
  refine ⟨?_, ?_, ?_⟩
  · intro s l hok
    simp only [lengthPrefixPointsTo] at hok
    split_ifs at hok with h1 h2 h3 h4
    have hinj := GoRes.ok.inj hok
    have hs := congrArg Prod.fst hinj
    have hl := congrArg Prod.snd hinj
    simp only at hs hl
    omega
  · intro e he
    simp only [lengthPrefixPointsTo] at he
    split_ifs at he
  · intro hgt
    refine ⟨"abi: cannot marshal in to go slice: offset would go over slice boundary", ?_⟩
    simp only [lengthPrefixPointsTo]
    rw [if_pos hgt]

/-- Witness for C9 at the concrete buffer: the offset word 32 points at an
empty dynamic value, the decoder accepts it, and the returned start/length
pair lies within the 64-byte buffer. -/
theorem lengthPrefixPointsTo_bounds_witness :
    0 + 32 ≤ exDynOutput.length ∧ 64 + 0 ≤ exDynOutput.length :=
  ⟨by decide, (lengthPrefixPointsTo_bounds 0 exDynOutput (by decide)).1 64 0 (by decide)⟩

end ProvideGo

namespace ProvideGo

/-- Claim C4 (code bug): for the numeric network identifier "5" the claim
requires a derived chain id 5, cached and returned on subsequent calls; in
the source the guard is inverted (`if err != nil` where the parse
SUCCEEDED), so `GetChainConfig` returns the untouched mainnet config with
chain id 1 and caches nothing, and a second call behaves identically. -/
theorem getChainConfig_numeric_id_not_derived :
    GetChainConfigM "5" initialChainCfgState = (1, initialChainCfgState) ∧
    (GetChainConfigM "5" (GetChainConfigM "5" initialChainCfgState).2).1 = 1 ∧
    (1 : Int) ≠ 5 := by
  decide

end ProvideGo

namespace ProvideGo

/-- Claim C8 (code bug): when the primary `net_peerCount` invocation fails
and the fallback `parity_netPeers` succeeds with peer count 5, the claim
requires `GetPeerCount` to return 5 without panicking; the source instead
calls `Error()` on the nil fallback error and panics (and would return 0,
discarding the fallback response, even if it did not). The sanctioned
both-fail fallback to 0 is also evaluated for contrast. -/
theorem getPeerCount_fallback_success_crashes :
    GetPeerCountM exPeerCountEnv =
      .crash "runtime error: invalid memory address or nil pointer dereference" ∧
    GetPeerCountM ⟨.fail "unsupported", .fail "unsupported"⟩ = .ok 0 ∧
    GetPeerCountM ⟨.ok (.vString "0x5"), .fail "unsupported"⟩ = .ok 5 := by
  decide

end ProvideGo

namespace ProvideGo

/-- Claim C10 (code bug): the claim requires that two concurrent callers
of `ResolveJsonRpcClient` with the same network id yield exactly one
dialed connection record, with duplicate dial attempts reusing the
existing record. Because the `len == 0` check and the dial happen outside
the mutex, in the interleaving where both callers pass the empty-check
before either writes, BOTH callers dial (two fresh connections, ids 0
and 1, so `nextClientId` ends at 2) and each locked write assigns
`append` of its stale empty snapshot: the second write overwrites the
first, the cache ends holding only client 1, the first dialed connection
is left untracked (leaked — `clearCachedClients` can never close it),
and the two callers return DISTINCT clients instead of sharing one
record. -/
theorem resolveJsonRpc_race_duplicate_dials :
    runRace exRaceSchedule initRaceState = ⟨[1], 2, .done 0, .done 1⟩ ∧
    (runRace exRaceSchedule initRaceState).nextClientId = 2 ∧
    (runRace exRaceSchedule initRaceState).threadA ≠
      (runRace exRaceSchedule initRaceState).threadB ∧
    0 ∉ (runRace exRaceSchedule initRaceState).clients := by
  decide

end ProvideGo

namespace ProvideGo

/-- Claim C7: whenever the node is unreachable (the dial or its liveness
probe fails, i.e. `DialJsonRpc` returns an error) or unconfigured (empty
RPC URL or unresolved client), `GetNetworkStatus` returns a SUCCESSFUL
degraded status whose state is "configuring" with a diagnostic message in
its metadata, and never returns an error in those cases. -/
theorem getNetworkStatus_configuring (env : NetworkStatusEnv) (networkID rpcURL : String)
    (hnc : env.dial.isCrash = false)
    (h : env.dial.isFail = true ∨ rpcURL = "" ∨ env.dial = .ok none) :
    ∃ st, GetNetworkStatusM env networkID rpcURL = .ok st ∧
      st.state = some "configuring" ∧ st.metaError ≠ none := by
  unfold GetNetworkStatusM
  cases hd : env.dial with
  | crash e => rw [hd] at hnc; simp [GoRes.isCrash] at hnc
  | fail e =>
    exact ⟨configuringStatus e, rfl, rfl, by simp [configuringStatus]⟩
  | ok client =>
    dsimp only
    rcases h with hf | hurl | hnil
    · rw [hd] at hf; simp [GoRes.isFail] at hf
    · rw [if_pos hurl]
      exact ⟨_, rfl, rfl, by simp [configuringStatus]⟩
    · rw [hd] at hnil
      obtain rfl : client = none := by injection hnil
      by_cases hurl : rpcURL = ""
      · rw [if_pos hurl]
        exact ⟨_, rfl, rfl, by simp [configuringStatus]⟩
      · rw [if_neg hurl]
        exact ⟨_, rfl, rfl, by simp [configuringStatus]⟩

/-- Witness for C7: an unreachable node (failed dial) yields the degraded
"configuring" status. -/
theorem getNetworkStatus_configuring_witness :
    exNetEnvDown.dial.isCrash = false ∧
    (exNetEnvDown.dial.isFail = true ∨ ("http://node" : String) = "" ∨
      exNetEnvDown.dial = .ok none) ∧
    ∃ st, GetNetworkStatusM exNetEnvDown "1" "http://node" = .ok st ∧
      st.state = some "configuring" ∧ st.metaError ≠ none :=
  ⟨by decide, by decide,
    getNetworkStatus_configuring exNetEnvDown "1" "http://node" (by decide) (by decide)⟩

end ProvideGo

namespace ProvideGo

/-- Claim C3 counterexample: with a healthy network environment and the
unparseable private key "zz", `SignTx` does return the parse error, but
the trace of network interactions performed BEFORE the reported parse
failure is dial, sync-progress, block-number, nonce and gas-price — the
claim requires that no network call precede the parse failure. -/
theorem signTx_parse_after_network_cex :
    SignTxModel exEthEnv initialChainCfgState (fun _ _ _ => [0]) (fun _ _ => .ok [1])
        "1" "http://node" "0xFrom" "zz" (some "0xTo") none 0 21000 =
      (.fail "Failed read private key bytes prior to signing tx",
       [.dialE, .syncProgressE, .blockNumberE, .nonceE, .gasPriceE]) := by
  decide

/-- Claim C3 (amended): if the supplied private-key hex string fails to
parse, `SignTx` fails — no signed transaction is ever produced — but only
after the network interactions: on every execution the performed-call
trace begins with the dial. -/
theorem signTx_bad_key_fails_after_network (env : EthEnv) (cfgState : ChainCfgState)
    (hashFn : Int → Nat → EthTx → List Nat)
    (signFn : List Nat → List Nat → GoRes (List Nat))
    (networkID rpcURL fromAddr privateKey : String) (toAddr dataHex : Option String)
    (val : Int) (gasLimit : Nat)
    (h : (hexToECDSA privateKey).isFail = true) :
    (∀ stx, (SignTxModel env cfgState hashFn signFn networkID rpcURL fromAddr privateKey
        toAddr dataHex val gasLimit).1 ≠ .ok stx) ∧
    ∃ rest, (SignTxModel env cfgState hashFn signFn networkID rpcURL fromAddr privateKey
        toAddr dataHex val gasLimit).2 = .dialE :: rest := by
  obtain ⟨e, he⟩ : ∃ e, hexToECDSA privateKey = .fail e := by
    cases hk : hexToECDSA privateKey with
    | fail e => exact ⟨e, rfl⟩
    | ok v => rw [hk] at h; simp [GoRes.isFail] at h
    | crash e => rw [hk] at h; simp [GoRes.isFail] at h
  have hfin : ∀ cfgChainID blockNumber nonce gasPrice txData gl trace,
      signTxFinish cfgChainID blockNumber nonce gasPrice txData hashFn signFn
          privateKey toAddr val gl trace =
        (.fail "Failed read private key bytes prior to signing tx", trace) := by
    intro cfgChainID blockNumber nonce gasPrice txData gl trace
    unfold signTxFinish
    rw [he]
  constructor
  · intro stx hst
    unfold SignTxModel at hst
    repeat' split at hst
    all_goals ((try rw [hfin] at hst); simp at hst)
  · unfold SignTxModel
    repeat' split
    all_goals ((try rw [hfin]); exact ⟨_, rfl⟩)

/-- Witness for the amended C3: the key "zz" fails to parse and the trace
of the concrete healthy-environment run begins with the dial. -/
theorem signTx_bad_key_fails_after_network_witness :
    (hexToECDSA "zz").isFail = true ∧
    ∃ rest, (SignTxModel exEthEnv initialChainCfgState (fun _ _ _ => [0]) (fun _ _ => .ok [1])
        "1" "http://node" "0xFrom" "zz" (some "0xTo") none 0 21000).2 = .dialE :: rest :=
  ⟨by decide,
    (signTx_bad_key_fails_after_network exEthEnv initialChainCfgState
      (fun _ _ _ => [0]) (fun _ _ => .ok [1]) "1" "http://node" "0xFrom" "zz"
      (some "0xTo") none 0 21000 (by decide)).2⟩

end ProvideGo

namespace ProvideGo

/-! ## Hex and keystream lemmas -/

theorem hexCharVal_hexChar (n : Nat) (h : n < 16) : hexCharVal (hexChar n) = some n := by
  interval_cases n <;> decide

theorem hexDecodeChars_encode (bs : List Nat) (h : ∀ b ∈ bs, b < 256) :
    hexDecodeChars (bs.flatMap fun b => [hexChar (b / 16 % 16), hexChar (b % 16)]) = some bs := by
  induction bs with
  | nil => rfl
  | cons b rest ih =>
    have hb : b < 256 := h b (List.mem_cons_self _ _)
    simp only [List.flatMap_cons, List.cons_append, List.nil_append]
    rw [hexDecodeChars, hexCharVal_hexChar _ (Nat.mod_lt _ (by norm_num)),
      hexCharVal_hexChar _ (Nat.mod_lt _ (by norm_num)),
      ih fun x hx => h x (List.mem_cons_of_mem _ hx)]
    dsimp only
    have hbv : 16 * (b / 16 % 16) + b % 16 = b := by omega
    rw [hbv]

theorem hexDecode_hexEncode (bs : List Nat) (h : ∀ b ∈ bs, b < 256) :
    hexDecode (hexEncode bs) = some bs := by
  unfold hexDecode hexEncode
  exact hexDecodeChars_encode bs h

theorem hexEncode_injOn (bs1 bs2 : List Nat) (h1 : ∀ b ∈ bs1, b < 256)
    (h2 : ∀ b ∈ bs2, b < 256) (he : hexEncode bs1 = hexEncode bs2) : bs1 = bs2 := by
  have hh := hexDecode_hexEncode bs1 h1
  rw [he, hexDecode_hexEncode bs2 h2] at hh
  exact (Option.some.inj hh).symm

theorem ctrKeystream_length (encBlock : List Nat → List Nat) (iv : List Nat) (n : Nat)
    (hbl : ∀ b, (encBlock b).length = 16) :
    (ctrKeystream encBlock iv n).length = 16 * n := by
  induction n with
  | zero => rfl
  | succ k ih =>
    unfold ctrKeystream at ih ⊢
    rw [List.range_succ, List.flatMap_append, List.length_append, ih]
    simp [hbl]
    omega

theorem ctrKeystream_lt (encBlock : List Nat → List Nat) (iv : List Nat) (n : Nat)
    (hb : ∀ b x, x ∈ encBlock b → x < 256) :
    ∀ x ∈ ctrKeystream encBlock iv n, x < 256 := by
  intro x hx
  unfold ctrKeystream at hx
  rw [List.mem_flatMap] at hx
  obtain ⟨i, _, hxi⟩ := hx
  exact hb _ x hxi

theorem zipWith_xor_lt : ∀ (m ks : List Nat), (∀ a ∈ m, a < 256) → (∀ a ∈ ks, a < 256) →
    ∀ x ∈ List.zipWith Nat.xor m ks, x < 256 := by
  intro m
  induction m with
  | nil => intro ks _ _ x hx; simp at hx
  | cons a m ih =>
    intro ks hm hks x hx
    cases ks with
    | nil => simp at hx
    | cons b ks =>
      simp only [List.zipWith_cons_cons, List.mem_cons] at hx
      rcases hx with rfl | hx
      · have h1 : a < 2 ^ 8 := hm a (List.mem_cons_self _ _)
        have h2 : b < 2 ^ 8 := hks b (List.mem_cons_self _ _)
        simpa using Nat.xor_lt_two_pow h1 h2
      · exact ih ks (fun y hy => hm y (List.mem_cons_of_mem _ hy))
          (fun y hy => hks y (List.mem_cons_of_mem _ hy)) x hx

theorem zipWith_xor_cancel : ∀ (m ks : List Nat), m.length ≤ ks.length →
    List.zipWith Nat.xor (List.zipWith Nat.xor m ks) ks = m := by
  intro m
  induction m with
  | nil => intro ks _; simp
  | cons a m ih =>
    intro ks h
    cases ks with
    | nil => simp at h
    | cons b ks =>
      simp only [List.zipWith_cons_cons]
      rw [ih ks (by simpa using h)]
      have hx : a ^^^ b ^^^ b = a := Nat.xor_cancel_right _ _
      exact congrArg (fun z => z :: m) hx

theorem ctrXorBytes_length (encBlock : List Nat → List Nat) (inText iv : List Nat)
    (hbl : ∀ b, (encBlock b).length = 16) :
    (ctrXorBytes encBlock inText iv).length = inText.length := by
  unfold ctrXorBytes
  rw [List.length_zipWith, ctrKeystream_length encBlock iv _ hbl]
  omega

theorem ctrXorBytes_lt (encBlock : List Nat → List Nat) (inText iv : List Nat)
    (hm : ∀ a ∈ inText, a < 256) (hb : ∀ b x, x ∈ encBlock b → x < 256) :
    ∀ x ∈ ctrXorBytes encBlock inText iv, x < 256 := by
  intro x hx
  exact zipWith_xor_lt _ _ hm (ctrKeystream_lt _ _ _ hb) x hx

theorem ctrXorBytes_cancel (encBlock : List Nat → List Nat) (m iv : List Nat)
    (hbl : ∀ b, (encBlock b).length = 16) :
    ctrXorBytes encBlock (ctrXorBytes encBlock m iv) iv = m := by
  unfold ctrXorBytes
  rw [List.length_zipWith, ctrKeystream_length encBlock iv _ hbl,
    Nat.min_eq_left (by omega : m.length ≤ 16 * ((m.length + 15) / 16))]
  exact zipWith_xor_cancel m _ (by rw [ctrKeystream_length encBlock iv _ hbl]; omega)

theorem aesCTRXOR_ok (aesEnc : List Nat → List Nat → List Nat) (key inText iv : List Nat)
    (h : key.length = 16) :
    aesCTRXOR aesEnc key inText iv = .ok (ctrXorBytes (aesEnc key) inText iv) := by
  unfold aesCTRXOR
  rw [if_pos (Or.inl h)]

theorem MarshalEncryptedKey_eq
    (scryptKey : List Nat → List Nat → Nat → Nat → Nat → Nat → List Nat)
    (aesEnc : List Nat → List Nat → List Nat) (keccak256 : List Nat → List Nat)
    (keyUUID : String) (addr privKeyBytes : List Nat) (secret : String) (salt iv : List Nat)
    (hdk : (scryptKey (strBytes secret) salt scryptLightN scryptR scryptLightP
        scryptDKLen).length = 32) :
    MarshalEncryptedKey scryptKey aesEnc keccak256 keyUUID addr privKeyBytes secret salt iv =
      .ok ⟨keyUUID, hexEncode addr,
           ⟨"aes-128-ctr",
            hexEncode (ctrXorBytes
              (aesEnc ((scryptKey (strBytes secret) salt scryptLightN scryptR scryptLightP
                scryptDKLen).take 16)) privKeyBytes iv),
            hexEncode iv, "scrypt", scryptLightN, scryptR, scryptLightP, scryptDKLen,
            hexEncode salt,
            hexEncode (keccak256
              (((scryptKey (strBytes secret) salt scryptLightN scryptR scryptLightP
                  scryptDKLen).drop 16).take 16 ++
                ctrXorBytes (aesEnc ((scryptKey (strBytes secret) salt scryptLightN scryptR
                  scryptLightP scryptDKLen).take 16)) privKeyBytes iv))⟩,
           3⟩ := by
  simp only [MarshalEncryptedKey]
  rw [aesCTRXOR_ok _ _ _ _ (by simp [List.length_take, hdk])]

end ProvideGo

namespace ProvideGo

/-- Claim C5: every keystore record produced by `MarshalEncryptedKey`
reproduces the version-3 web3 layout: version 3, cipher "aes-128-ctr",
kdf "scrypt" with kdfparams n=4096, r=4, p=6, dklen=32 plus the supplied
random salt, and a mac field equal to Keccak256 of bytes 16..32 of the
scrypt-derived key concatenated with the ciphertext. The hypothesis is
that the KDF returns its declared 32 bytes (true of scrypt). -/
theorem MarshalEncryptedKey_v3_layout
    (scryptKey : List Nat → List Nat → Nat → Nat → Nat → Nat → List Nat)
    (aesEnc : List Nat → List Nat → List Nat) (keccak256 : List Nat → List Nat)
    (keyUUID : String) (addr privKeyBytes : List Nat) (secret : String) (salt iv : List Nat)
    (hdk : (scryptKey (strBytes secret) salt scryptLightN scryptR scryptLightP
        scryptDKLen).length = 32) :
    ∃ cipherText,
      aesCTRXOR aesEnc
          ((scryptKey (strBytes secret) salt scryptLightN scryptR scryptLightP
            scryptDKLen).take 16) privKeyBytes iv = .ok cipherText ∧
      MarshalEncryptedKey scryptKey aesEnc keccak256 keyUUID addr privKeyBytes secret salt iv =
        .ok ⟨keyUUID, hexEncode addr,
             ⟨"aes-128-ctr", hexEncode cipherText, hexEncode iv, "scrypt",
              4096, 4, 6, 32, hexEncode salt,
              hexEncode (keccak256
                (((scryptKey (strBytes secret) salt scryptLightN scryptR scryptLightP
                    scryptDKLen).drop 16).take 16 ++ cipherText))⟩,
             3⟩ := by
  refine ⟨_, aesCTRXOR_ok _ _ _ _ (by simp [List.length_take, hdk]), ?_⟩
  rw [MarshalEncryptedKey_eq scryptKey aesEnc keccak256 keyUUID addr privKeyBytes secret
    salt iv hdk]
  norm_num [scryptLightN, scryptR, scryptLightP, scryptDKLen]

/-- Witness for C5 with concrete stand-in primitives and randomness. -/
theorem MarshalEncryptedKey_v3_layout_witness :
    (scryptStub (strBytes "pw") [1, 2] scryptLightN scryptR scryptLightP
      scryptDKLen).length = 32 ∧
    ∃ cipherText,
      aesCTRXOR aesEncStub
          ((scryptStub (strBytes "pw") [1, 2] scryptLightN scryptR scryptLightP
            scryptDKLen).take 16) (List.replicate 32 9) (List.replicate 16 0) =
        .ok cipherText ∧
      MarshalEncryptedKey scryptStub aesEncStub keccakStub "uuid" [7]
          (List.replicate 32 9) "pw" [1, 2] (List.replicate 16 0) =
        .ok ⟨"uuid", hexEncode [7],
             ⟨"aes-128-ctr", hexEncode cipherText, hexEncode (List.replicate 16 0), "scrypt",
              4096, 4, 6, 32, hexEncode [1, 2],
              hexEncode (keccakStub
                (((scryptStub (strBytes "pw") [1, 2] scryptLightN scryptR scryptLightP
                    scryptDKLen).drop 16).take 16 ++ cipherText))⟩,
             3⟩ :=
  ⟨by decide,
    MarshalEncryptedKey_v3_layout scryptStub aesEncStub keccakStub "uuid" [7]
      (List.replicate 32 9) "pw" [1, 2] (List.replicate 16 0) (by decide)⟩

end ProvideGo

namespace ProvideGo

/-- Claim C6: decrypting the record produced by `MarshalEncryptedKey` with
the original passphrase (re-deriving the key via scrypt from the stored
salt and parameters, then applying AES-128-CTR with the stored IV to the
stored ciphertext) recovers the original private key bytes exactly, while
decrypting with a passphrase whose re-derived MAC differs fails MAC
verification with a decrypt error rather than returning key bytes. The
hypotheses state byte-validity of the inputs and primitives, that the KDF
returns its declared 32 bytes, and that the two MACs differ (the
collision-freeness of Keccak-256 over the distinct scrypt-derived MAC
halves, which cannot be proved of an abstract hash). -/
theorem keystore_decrypt_roundtrip
    (scryptKey : List Nat → List Nat → Nat → Nat → Nat → Nat → List Nat)
    (aesEnc : List Nat → List Nat → List Nat) (keccak256 : List Nat → List Nat)
    (keyUUID : String) (addr privKeyBytes : List Nat) (secret wrongSecret : String)
    (salt iv : List Nat)
    (hdk : (derivedKeyOf scryptKey secret salt).length = 32)
    (hbl : ∀ k b, (aesEnc k b).length = 16)
    (hbb : ∀ k b x, x ∈ aesEnc k b → x < 256)
    (hkey : ∀ x ∈ privKeyBytes, x < 256)
    (hsalt : ∀ x ∈ salt, x < 256)
    (hiv : ∀ x ∈ iv, x < 256)
    (hkec : ∀ bs x, x ∈ keccak256 bs → x < 256)
    (hne : keccak256 (((derivedKeyOf scryptKey wrongSecret salt).drop 16).take 16 ++
          cipherTextOf scryptKey aesEnc secret salt privKeyBytes iv) ≠
        keccak256 (((derivedKeyOf scryptKey secret salt).drop 16).take 16 ++
          cipherTextOf scryptKey aesEnc secret salt privKeyBytes iv)) :
    ∃ record,
      MarshalEncryptedKey scryptKey aesEnc keccak256 keyUUID addr privKeyBytes secret
          salt iv = .ok record ∧
      decryptKeystoreRecord scryptKey aesEnc keccak256 record secret = .ok privKeyBytes ∧
      decryptKeystoreRecord scryptKey aesEnc keccak256 record wrongSecret =
        .fail "could not decrypt key with given password" := by
  have hct_lt : ∀ x ∈ cipherTextOf scryptKey aesEnc secret salt privKeyBytes iv, x < 256 :=
    ctrXorBytes_lt _ _ _ hkey fun b x hx => hbb _ b x hx
  have htake16 : ((derivedKeyOf scryptKey secret salt).take 16).length = 16 := by
    simp [List.length_take, hdk]
  simp only [derivedKeyOf, cipherTextOf] at hdk htake16 hct_lt hne
  refine ⟨_, MarshalEncryptedKey_eq scryptKey aesEnc keccak256 keyUUID addr privKeyBytes
    secret salt iv hdk, ?_, ?_⟩
  · simp only [decryptKeystoreRecord]
    rw [show (hexDecode (hexEncode salt)) = some salt from hexDecode_hexEncode salt hsalt]
    rw [show (hexDecode (hexEncode (ctrXorBytes
        (aesEnc ((scryptKey (strBytes secret) salt scryptLightN scryptR scryptLightP
          scryptDKLen).take 16)) privKeyBytes iv))) = some (ctrXorBytes
        (aesEnc ((scryptKey (strBytes secret) salt scryptLightN scryptR scryptLightP
          scryptDKLen).take 16)) privKeyBytes iv) from hexDecode_hexEncode _ hct_lt]
    rw [show (hexDecode (hexEncode iv)) = some iv from hexDecode_hexEncode iv hiv]
    dsimp only
    rw [if_neg (fun hcon => hcon rfl)]
    rw [aesCTRXOR_ok _ _ _ _ htake16]
    rw [ctrXorBytes_cancel _ _ _ fun b => hbl _ b]
  · simp only [decryptKeystoreRecord]
    rw [show (hexDecode (hexEncode salt)) = some salt from hexDecode_hexEncode salt hsalt]
    rw [show (hexDecode (hexEncode (ctrXorBytes
        (aesEnc ((scryptKey (strBytes secret) salt scryptLightN scryptR scryptLightP
          scryptDKLen).take 16)) privKeyBytes iv))) = some (ctrXorBytes
        (aesEnc ((scryptKey (strBytes secret) salt scryptLightN scryptR scryptLightP
          scryptDKLen).take 16)) privKeyBytes iv) from hexDecode_hexEncode _ hct_lt]
    rw [show (hexDecode (hexEncode iv)) = some iv from hexDecode_hexEncode iv hiv]
    dsimp only
    rw [if_pos ?_]
    intro hcon
    exact hne (hexEncode_injOn _ _ (fun x hx => hkec _ x hx) (fun x hx => hkec _ x hx) hcon)

/-- Witness for C6 with concrete stand-in primitives: the passphrase "pw"
round-trips to the original 32 key bytes and the passphrase "xx" fails MAC
verification. -/
theorem keystore_decrypt_roundtrip_witness :
    (derivedKeyOf scryptStub2 "pw" [1, 2]).length = 32 ∧
    keccakStub (((derivedKeyOf scryptStub2 "xx" [1, 2]).drop 16).take 16 ++
        cipherTextOf scryptStub2 aesEncStub "pw" [1, 2] (List.replicate 32 9)
          (List.replicate 16 0)) ≠
      keccakStub (((derivedKeyOf scryptStub2 "pw" [1, 2]).drop 16).take 16 ++
        cipherTextOf scryptStub2 aesEncStub "pw" [1, 2] (List.replicate 32 9)
          (List.replicate 16 0)) ∧
    ∃ record,
      MarshalEncryptedKey scryptStub2 aesEncStub keccakStub "uuid" [7]
          (List.replicate 32 9) "pw" [1, 2] (List.replicate 16 0) = .ok record ∧
      decryptKeystoreRecord scryptStub2 aesEncStub keccakStub record "pw" =
        .ok (List.replicate 32 9) ∧
      decryptKeystoreRecord scryptStub2 aesEncStub keccakStub record "xx" =
        .fail "could not decrypt key with given password" :=
  ⟨by decide, by decide,
    keystore_decrypt_roundtrip scryptStub2 aesEncStub keccakStub "uuid" [7]
      (List.replicate 32 9) "pw" "xx" [1, 2] (List.replicate 16 0)
      (by decide)
      (fun _ _ => rfl)
      (fun k b x hx => by rw [List.eq_of_mem_replicate hx]; norm_num)
      (by decide)
      (by decide)
      (by decide)
      (fun bs x hx => by
        simp only [keccakStub, List.mem_map] at hx
        obtain ⟨a, _, rfl⟩ := hx
        exact Nat.mod_lt _ (by norm_num))
      (by decide)⟩

end ProvideGo
